import Mathlib

set_option maxRecDepth 4000

/-!
Verification of the go-hdsk hierarchical deterministic symmetric key library.

The development shallowly embeds the Go sources:
  * `hdsk.go` (package hdsk: `Schema`, `Path`, `Master`, `Child`, `Node`, `Lineage`),
  * `internal/utils/utils.go` (package utils: `CalcSalt`, `StrToIndex`,
    `isValidIndex`, `GetIndex`, string classification helpers),
  * `internal/hkdf/hkdf.go` (package hkdf: `mac_digest`, `hkdf_extract`,
    `hkdf_expand`, `Hkdf`).

Go strings are modelled as `List Char`, byte slices as `List Nat` (each entry a
byte value), and fallible Go functions return `Res α`: `Res.ok` for a normal
return, `Res.err` for an `error` value (the embedding keeps a short fixed
message in place of the formatted Go error text), and `Res.crash` for a Go
runtime panic (out-of-range slice index).

External cryptographic primitives (the caller-supplied `hash.Hash` together
with the blake2b package and the standard-library `crypto/hkdf`) are
abstracted as structures carrying the digest functions and their length laws.
-/

namespace Hdsk

/-- Result of a fallible Go computation: a value, a returned `error`, or a
runtime panic. -/
inductive Res (α : Type) where
  | ok : α → Res α
  | err : String → Res α
  | crash : Res α
deriving DecidableEq, Repr

/-- Characters of a Lean string literal, used to transcribe Go string literals. -/
def gs (s : String) : List Char := s.data

/-- Go `unicode.IsSpace` restricted to the Latin-1 range, as used by
`strings.TrimSpace`. -/
def goIsSpace (c : Char) : Bool :=
  c = ' ' || c = '\t' || c = '\n' || c = Char.ofNat 11 || c = Char.ofNat 12 ||
    c = '\r' || c.toNat = 0x85 || c.toNat = 0xA0

/-- Go `strings.TrimSpace`: drop whitespace from both ends. -/
def goTrimSpace (s : List Char) : List Char :=
  ((s.dropWhile goIsSpace).reverse.dropWhile goIsSpace).reverse

/-- Worker for `goSplit`. The fuel argument only forces termination; it is
consumed once per examined character, so `s.length + 1` is always enough. -/
def goSplitF (sep : List Char) : Nat → List Char → List Char → List (List Char)
  | 0, s, acc => [acc.reverse ++ s]
  | _ + 1, [], acc => [acc.reverse]
  | fuel + 1, c :: rest, acc =>
    if sep.isPrefixOf (c :: rest) then
      acc.reverse :: goSplitF sep fuel (List.drop sep.length (c :: rest)) []
    else
      goSplitF sep fuel rest (c :: acc)

/-- Go `strings.Split(s, sep)` for a non-empty separator: the substrings
between consecutive leftmost occurrences of `sep`. -/
def goSplit (sep s : List Char) : List (List Char) :=
  goSplitF sep (s.length + 1) s []

/-- UTF-8 encoding of one character. -/
def utf8Char (c : Char) : List Nat :=
  let n := c.toNat
  if n < 0x80 then [n]
  else if n < 0x800 then [0xC0 + n / 64, 0x80 + n % 64]
  else if n < 0x10000 then [0xE0 + n / 4096, 0x80 + n / 64 % 64, 0x80 + n % 64]
  else [0xF0 + n / 262144, 0x80 + n / 4096 % 64, 0x80 + n / 64 % 64, 0x80 + n % 64]

/-- Go `[]uint8(str)`: the UTF-8 bytes of a string. -/
def utf8 (s : List Char) : List Nat :=
  s.foldr (fun c acc => utf8Char c ++ acc) []

/-! ## Embedding of `internal/utils/utils.go` (package utils)

The blake2b digests used by the package are external primitives
(`golang.org/x/crypto/blake2b`); they are abstracted as a structure carrying
the keyed-MAC and hash functions together with their output-length laws.
`blake2b.New(size, key)` fails exactly when the key is longer than 64 bytes,
which the wrappers below reproduce. -/

/-- Abstract interface of the blake2b package: a 16-byte keyed MAC, a 64-byte
keyed MAC, and the unkeyed 256-bit digest `Sum256`. -/
structure Blake2b where
  mac16 : List Nat → List Nat → List Nat
  mac64 : List Nat → List Nat → List Nat
  sum256 : List Nat → List Nat
  mac16_len : ∀ k m, (mac16 k m).length = 16
  mac64_len : ∀ k m, (mac64 k m).length = 64
  sum256_len : ∀ m, (sum256 m).length = 32

/-- Hexadecimal digit test, one character of the `hexRegex` class. -/
def isHexDigit (c : Char) : Bool :=
  ('0' ≤ c && c ≤ '9') || ('a' ≤ c && c ≤ 'f') || ('A' ≤ c && c ≤ 'F')

/-- utils `isHex`: even length and full match of `^[0-9a-fA-F]+$`. -/
def isHex (s : List Char) : Bool :=
  s.length % 2 = 0 && !s.isEmpty && s.all isHexDigit

/-- utils `isNumber`: full match of `^\d+$`. -/
def isNumber (s : List Char) : Bool :=
  !s.isEmpty && s.all (fun c => '0' ≤ c && c ≤ '9')

/-- utils `isString`: full match of `^[a-zA-Z\-]+$`. -/
def isString (s : List Char) : Bool :=
  !s.isEmpty && s.all (fun c => ('a' ≤ c && c ≤ 'z') || ('A' ≤ c && c ≤ 'Z') || c = '-')

/-- Value of one hexadecimal digit. -/
def hexDigitVal (c : Char) : Nat :=
  if '0' ≤ c && c ≤ '9' then c.toNat - 48
  else if 'a' ≤ c && c ≤ 'f' then c.toNat - 87
  else c.toNat - 55

/-- `hex.DecodeString` on a string already validated by `isHex`. -/
def hexDecode : List Char → List Nat
  | c1 :: c2 :: rest => (16 * hexDigitVal c1 + hexDigitVal c2) :: hexDecode rest
  | _ => []

/-- utils `strToBytes`: hex-decode a hexadecimal string, otherwise take the
UTF-8 bytes (the `hex.DecodeString` error cannot occur after the `isHex`
guard, so the embedding is total). -/
def strToBytes (s : List Char) : List Nat :=
  if isHex s then hexDecode s else utf8 s

/-- Numeric value of a decimal digit string. -/
def digitsVal (s : List Char) : Nat :=
  s.foldl (fun a c => a * 10 + (c.toNat - 48)) 0

/-- Go `strconv.Atoi` on a digit-only string with the error ignored
(`i, _ = strconv.Atoi(index)`): the value, clamped to the largest `int`
(64-bit) on overflow, which is what `Atoi` returns alongside `ErrRange`. -/
def goAtoi (s : List Char) : Nat :=
  min (digitsVal s) (2 ^ 63 - 1)

/-- Big-endian integer value of a byte list; on four bytes this is
`binary.BigEndian.Uint32`. -/
def be32 (l : List Nat) : Nat :=
  l.foldl (fun a b => a * 256 + b) 0

/-- utils `CalcSalt`: a 16-byte blake2b MAC of the secret keyed by the
domain-separation label, returned as label ‖ MAC. `blake2b.New(16, label)`
fails only for keys longer than 64 bytes. -/
def CalcSalt (B : Blake2b) (secret : List Nat) : Res (List Nat) :=
  let label := strToBytes (gs "symmetric_hd/salt")
  if 64 < label.length then Res.err "blake2b: invalid key size"
  else Res.ok (label ++ B.mac16 label secret)

/-- utils `StrToIndex`: blake2b-256 of the string, first four digest bytes as
a big-endian integer, reduced modulo `2^31`. -/
def StrToIndex (B : Blake2b) (s : List Char) : Nat :=
  be32 ((B.sum256 (utf8 s)).take 4) % 0x80000000

/-- utils `isValidIndex`: the index lies in `0 .. 2^31 - 1` (the lower bound
is vacuous over `Nat`). -/
def isValidIndex (i : Nat) : Bool :=
  i ≤ 0x7FFFFFFF

/-- utils `GetIndex`: resolve an index string under a schema type, then gate
the result through `isValidIndex`. Error messages abbreviate the formatted Go
error text. -/
def GetIndex (B : Blake2b) (index typ : List Char) : Res Nat :=
  let r : Res Nat :=
    if typ = gs "num" then
      if isNumber index then Res.ok (goAtoi index)
      else Res.err "invalid number index"
    else if typ = gs "str" then
      if isString index then Res.ok (StrToIndex B index)
      else Res.err "invalid string index"
    else if typ = gs "any" then
      if isNumber index then Res.ok (goAtoi index)
      else if isString index then Res.ok (StrToIndex B index)
      else Res.err "invalid index"
    else Res.err "invalid type"
  match r with
  | Res.ok i => if isValidIndex i then Res.ok i else Res.err "out of range index"
  | e => e

/-! ## Embedding of `internal/hkdf/hkdf.go` (package hkdf) -/

/-- hkdf `mac_digest`: a 64-byte blake2b MAC of `data` keyed by `key`;
`blake2b.New(64, key)` fails exactly when the key exceeds 64 bytes. -/
def mac_digest (B : Blake2b) (key data : List Nat) : Res (List Nat) :=
  if 64 < key.length then Res.err "blake2b: invalid key size"
  else Res.ok (B.mac64 key data)

/-- hkdf `hkdf_extract`: MAC the IKM keyed by the salt, a nil salt standing
for 64 zero bytes. -/
def hkdf_extract (B : Blake2b) (ikm : List Nat) (salt : Option (List Nat)) :
    Res (List Nat) :=
  mac_digest B (salt.getD (List.replicate 64 0)) ikm

/-- Loop of hkdf `hkdf_expand` as the Go source executes it. The source
declares `t` before the loop as the last block, but `t, err := mac_digest(…)`
inside the loop shadows it, so the `t` appended into `input` stays empty and
every block MACs only `info ++ [counter]`. The fuel argument only forces
termination: each productive round appends a 64-byte block, so `length + 1`
rounds are always enough and the fuel-exhaustion branch is unreachable. -/
def expandLoop (B : Blake2b) (prk info : List Nat) (length : Nat) :
    Nat → List Nat → Nat → Res (List Nat)
  | 0, _, _ => Res.crash
  | fuel + 1, okm, i =>
    if okm.length < length then
      match mac_digest B prk (([] : List Nat) ++ info ++ [(i + 1) % 256]) with
      | Res.ok t => expandLoop B prk info length fuel (okm ++ t) (i + 1)
      | Res.err e => Res.err e
      | Res.crash => Res.crash
    else
      Res.ok (okm.take length)

/-- hkdf `hkdf_expand`: concatenate MAC blocks until `length` bytes are
reached, then truncate (a nil `info` behaves as the empty slice). -/
def hkdf_expand (B : Blake2b) (prk info : List Nat) (length : Nat) :
    Res (List Nat) :=
  expandLoop B prk info length (length + 1) [] 0

/-- hkdf `Hkdf`: extract then expand. -/
def Hkdf (B : Blake2b) (ikm : List Nat) (salt : Option (List Nat))
    (info : List Nat) (length : Nat) : Res (List Nat) :=
  match hkdf_extract B ikm salt with
  | Res.ok prk => hkdf_expand B prk info length
  | Res.err e => Res.err e
  | Res.crash => Res.crash

/-! ## Embedding of `hdsk.go` (package hdsk)

`hdsk.go` is written against a reworked `internal/utils` (`CalcSalt` and
`Fingerprint` taking the caller's hash constructor and an optional context)
and the standard library `crypto/hkdf`; those helper sources are not part of
the sources here (the `internal` directory holds the predecessor package's
files), so they are modelled from the spec below, each marked as such. The
caller-supplied keyed-hash primitive is abstracted as a structure. -/

/-- Abstract caller-supplied hash primitive for `hdsk.go`: a plain digest, a
keyed MAC, and the standard-library `crypto/hkdf.Key` (an external,
deterministic function returning the requested number of bytes), with their
output-length laws. The spec requires a digest of at least 16 bytes for the
16-byte fingerprint truncation. -/
structure Prim where
  hash : List Nat → List Nat
  mac : List Nat → List Nat → List Nat
  hkdf : List Nat → List Nat → List Nat → Nat → List Nat
  digestLen : Nat
  hash_len : ∀ m, (hash m).length = digestLen
  mac_len : ∀ k m, (mac k m).length = digestLen
  hkdf_len : ∀ ikm salt info n, (hkdf ikm salt info n).length = n
  digest_ge : 16 ≤ digestLen

/-- Modelled from the spec: `CalcSalt(hashPrimitive, message, optionalContext)
→ 16 bytes` of the reworked internal utils (absent from the sources). A
present context is hashed and truncated to 16 bytes, an absent one is a
16-byte zero block; the salt is the keyed MAC over the message with the fixed
4-byte "SALT" tag appended to the MAC input, truncated to 16 bytes. -/
def calcSaltH (P : Prim) (message : List Nat) (ctx : Option (List Nat)) :
    List Nat :=
  let key := match ctx with
    | none => List.replicate 16 0
    | some c => (P.hash c).take 16
  (P.mac key (message ++ utf8 (gs "SALT"))).take 16

/-- Modelled from the spec: `Fingerprint(hashPrimitive, parentKeyBytes,
childKeyBytes) → 16 bytes` of the reworked internal utils (absent from the
sources): a keyed MAC over the child key bytes keyed by the parent key bytes,
truncated to 16 bytes. -/
def fingerprintH (P : Prim) (parent child : List Nat) : List Nat :=
  (P.mac parent child).take 16

/-- Modelled from the spec: `StrToIndex` of the reworked internal utils
(absent from the sources): hash the string, take the first four digest bytes
big-endian, reduce modulo `2^31`. -/
def strToIndexH (P : Prim) (s : List Char) : Nat :=
  be32 ((P.hash (utf8 s)).take 4) % 0x80000000

/-- Modelled from the spec: `GetIndex(h, index, typ)` of the reworked
internal utils (absent from the sources): `num` accepts a base-10 unsigned
integer fitting 32 bits, `str` accepts letters and hyphens mapped through
`strToIndexH`, `any` tries `num` then `str`. -/
def getIndexH (P : Prim) (index typ : List Char) : Res Nat :=
  if typ = gs "num" then
    if isNumber index then
      if digitsVal index ≤ 2 ^ 32 - 1 then Res.ok (digitsVal index)
      else Res.err "out of range index"
    else Res.err "invalid number index"
  else if typ = gs "str" then
    if isString index then Res.ok (strToIndexH P index)
    else Res.err "invalid string index"
  else if typ = gs "any" then
    if isNumber index then
      if digitsVal index ≤ 2 ^ 32 - 1 then Res.ok (digitsVal index)
      else Res.err "out of range index"
    else if isString index then Res.ok (strToIndexH P index)
    else Res.err "invalid index"
  else Res.err "invalid type"

/-- hdsk `HDSchema`: list of (label, type) pairs. -/
abbrev HDSchema := List (List Char × List Char)

/-- hdsk `HDPath`: list of resolved `uint32` indices. -/
abbrev HDPath := List Nat

/-- hdsk `HDKey`: key, chain code, depth, fingerprint. -/
structure HDKey where
  Key : List Nat
  Code : List Nat
  Depth : Nat
  Fingerprint : List Nat
deriving DecidableEq, Repr

/-- Loop of hdsk `Schema` over the non-root segments. A segment without a
`":"` separator makes `strings.Split` return a single part and the access
`parts[1]` panics. -/
def schemaLoop : List (List Char) → Res HDSchema
  | [] => Res.ok []
  | seg :: rest =>
    match goSplit (gs ":") seg with
    | p0 :: p1 :: _ =>
      let label := goTrimSpace p0
      let typ := goTrimSpace p1
      if label.isEmpty || typ.isEmpty then Res.err "invalid segment in schema"
      else if !(typ = gs "str" || typ = gs "num" || typ = gs "any") then
        Res.err "invalid type in schema"
      else
        match schemaLoop rest with
        | Res.ok tail => Res.ok ((label, typ) :: tail)
        | e => e
    | _ => Res.crash

/-- hdsk `Schema`: split on `" / "`, enforce the 256-segment bound and the
`"m"` root, then parse each remaining segment (`strings.Split` never returns
an empty list, so the head access is safe). -/
def Schema (str : List Char) : Res HDSchema :=
  let segments := goSplit (gs " / ") str
  if 256 < segments.length then Res.err "schema cannot exceed 256 segments"
  else
    match segments with
    | [] => Res.crash
    | s0 :: rest =>
      if s0 ≠ gs "m" then Res.err "schema must begin with m"
      else schemaLoop rest

/-- Loop of hdsk `Path` over the index strings, in step with the schema
(`schema[i]` is always in range because the caller checked
`len(indices) ≤ len(schema)`, so the second pattern is unreachable). -/
def pathLoop (P : Prim) : List (List Char) → HDSchema → Res HDPath
  | [], _ => Res.ok []
  | _ :: _, [] => Res.crash
  | index :: is', (_, typ) :: ss =>
    match getIndexH P index typ with
    | Res.ok idx =>
      match pathLoop P is' ss with
      | Res.ok tail => Res.ok (idx :: tail)
      | e => e
    | Res.err e => Res.err e
    | Res.crash => Res.crash

/-- hdsk `Path`: split on `"/"`, require the `"m"` root, bound the number of
indices by the schema length, then resolve each index under its schema type. -/
def Path (P : Prim) (str : List Char) (schema : HDSchema) : Res HDPath :=
  let segments := goSplit (gs "/") str
  match segments with
  | [] => Res.crash
  | s0 :: indices =>
    if s0 ≠ gs "m" then Res.err "path must begin with m"
    else if schema.length < indices.length then
      Res.err "too many indices in derivation path"
    else pathLoop P indices schema

/-- hdsk `Master`: salt from the secret, 64 bytes of HKDF output split into
key and chain code, depth 0, fingerprint over secret and key. -/
def Master (P : Prim) (secret : List Nat) : Res HDKey :=
  let salt := calcSaltH P secret none
  let ikm := P.hkdf secret salt (utf8 (gs "MASTER")) 64
  let master := ikm.take 32
  let code := (ikm.drop 32).take 32
  let fp := fingerprintH P secret master
  Res.ok { Key := master, Code := code, Depth := 0, Fingerprint := fp }

/-- Go `binary.BigEndian.PutUint32`: four big-endian bytes of an index. -/
def be32Bytes (n : Nat) : List Nat :=
  [n / 2 ^ 24 % 256, n / 2 ^ 16 % 256, n / 2 ^ 8 % 256, n % 256]

/-- Go `strconv.Itoa` on a natural number: the bytes of its decimal digits. -/
def decAscii (n : Nat) : List Nat :=
  (Nat.repr n).data.map Char.toNat

/-- hdsk `Child`: salt from the parent chain code and the encoded index, HKDF
info `"CHILD" + decimal(index)`, 64 bytes of HKDF output split into key and
chain code, depth one deeper (a `uint32`, so wrapping), fingerprint over the
parent key and child key. -/
def Child (P : Prim) (master : HDKey) (index : Nat) : Res HDKey :=
  let info1 := be32Bytes index
  let salt := calcSaltH P master.Code (some info1)
  let info2 := utf8 (gs "CHILD") ++ decAscii index
  let ikm := P.hkdf master.Code salt info2 64
  let child := ikm.take 32
  let code := (ikm.drop 32).take 32
  let fp := fingerprintH P master.Key child
  Res.ok { Key := child, Code := code, Depth := (master.Depth + 1) % 2 ^ 32,
           Fingerprint := fp }

/-- Loop of hdsk `Node` over the indices after the first. -/
def nodeLoop (P : Prim) (key : HDKey) : List Nat → Res HDKey
  | [] => Res.ok key
  | i :: rest =>
    match Child P key i with
    | Res.ok k => nodeLoop P k rest
    | Res.err e => Res.err e
    | Res.crash => Res.crash

/-- hdsk `Node`: initialize with the child at `path[0]` — an unguarded index
that panics when the path is empty — then fold `Child` over the remaining
indices. -/
def Node (P : Prim) (master : HDKey) (path : HDPath) : Res HDKey :=
  match path with
  | [] => Res.crash
  | i0 :: rest =>
    match Child P master i0 with
    | Res.ok k => nodeLoop P k rest
    | Res.err e => Res.err e
    | Res.crash => Res.crash

/-- The hdsk `Lineage` error text for fingerprints of the wrong length. -/
def lineageLenMsg : String := "fingerprints for lineage verification must be 16 bytes each"

/-- Accumulator of the constant-time comparison in hdsk `Lineage`: OR of the
XORs of the first 16 byte pairs (both lists have length 16 when it is used). -/
def ctFold (a b : List Nat) : Nat :=
  (List.range 16).foldl (fun r i => r ||| (a.getD i 0 ^^^ b.getD i 0)) 0

/-- hdsk `Lineage`: recompute the fingerprint from the alleged parent's key
and the child's key, require both fingerprints to be exactly 16 bytes, then
compare them in constant time. -/
def Lineage (P : Prim) (child master : HDKey) : Res Bool :=
  let fp1 := child.Fingerprint
  let fp2 := fingerprintH P master.Key child.Key
  if fp1.length ≠ 16 ∨ fp2.length ≠ 16 then Res.err lineageLenMsg
  else Res.ok (ctFold fp1 fp2 == 0)

/-! ## Concrete primitive instances for witnesses -/

/-- A concrete blake2b instance (any function family with the right digest
lengths is a valid instance of the abstract interface). -/
def tb : Blake2b where
  mac16 := fun k m => List.replicate 16 ((k.length + m.length) % 256)
  mac64 := fun k m => List.replicate 64 ((k.length + m.length) % 256)
  sum256 := fun m => List.replicate 32 (m.length % 256)
  mac16_len := fun _ _ => List.length_replicate 16 _
  mac64_len := fun _ _ => List.length_replicate 64 _
  sum256_len := fun _ => List.length_replicate 32 _

/-- A concrete caller-supplied primitive for `hdsk.go` (digest length 32, as
for sha256 used in the package test). -/
def toyPrim : Prim where
  hash := fun m => List.replicate 32 (m.length % 256)
  mac := fun k m => List.replicate 32 ((k.length + m.length) % 256)
  hkdf := fun ikm salt info n => List.replicate n ((ikm.length + salt.length + info.length) % 256)
  digestLen := 32
  hash_len := fun _ => List.length_replicate 32 _
  mac_len := fun _ _ => List.length_replicate 32 _
  hkdf_len := fun _ _ _ n => List.length_replicate n _
  digest_ge := by decide

/-- The master key `Master toyPrim []` evaluates to. -/
def toyMaster : HDKey where
  Key := List.replicate 32 22
  Code := List.replicate 32 22
  Depth := 0
  Fingerprint := List.replicate 16 32

/-- The child key `Child toyPrim toyMaster 1` evaluates to. -/
def toyChild : HDKey where
  Key := List.replicate 32 54
  Code := List.replicate 32 54
  Depth := 1
  Fingerprint := List.replicate 16 64

/-- An `HDKey` with a malformed (empty) fingerprint. -/
def badFpKey : HDKey where
  Key := []
  Code := []
  Depth := 0
  Fingerprint := []

example : Master toyPrim [] = Res.ok toyMaster := by decide
example : Child toyPrim toyMaster 1 = Res.ok toyChild := by decide
example : Lineage toyPrim toyChild toyMaster = Res.ok true := by decide

example : goSplit (gs "/") (gs "m") = [gs "m"] := by decide

/-! ## Shared lemmas -/

/-- The modelled fingerprint is always exactly 16 bytes. -/
theorem fingerprintH_len (P : Prim) (a b : List Nat) :
    (fingerprintH P a b).length = 16 := by
  simp [fingerprintH, List.length_take, P.mac_len, Nat.min_eq_left P.digest_ge]

/-- The constant-time accumulator over a list compared with itself is zero. -/
theorem ctFold_self (a : List Nat) : ctFold a a = 0 := by
  have h : ∀ (L : List Nat),
      L.foldl (fun r i => r ||| (a.getD i 0 ^^^ a.getD i 0)) 0 = 0 := by
    intro L
    induction L with
    | nil => rfl
    | cons x xs ih =>
      have hx : (0 : Nat) ||| (a.getD x 0 ^^^ a.getD x 0) = 0 := by simp
      rw [List.foldl_cons, hx]
      exact ih
  exact h (List.range 16)

/-! ## Claims -/

/-- C1: for every primitive and master key, hdsk `Node` applied to an empty
path hits the unguarded access `path[0]` and panics at runtime instead of
returning an error value. -/
theorem node_empty_path_panics (P : Prim) (master : HDKey) :
    Node P master [] = Res.crash := rfl

/-- C2: a schema string whose root is the reserved marker but that contains a
non-root segment without a `":"` separator makes hdsk `Schema` panic on the
unguarded access `parts[1]` instead of returning an InvalidSchema error. -/
theorem schema_missing_colon_panics : Schema (gs "m / foo") = Res.crash := by
  decide

/-- C9: hdsk `Master` is a pure function of the primitive and the secret, so
two successful invocations on the same arguments yield byte-identical key,
chain code, and fingerprint. -/
theorem master_deterministic (P : Prim) (secret : List Nat) (k1 k2 : HDKey)
    (h1 : Master P secret = Res.ok k1) (h2 : Master P secret = Res.ok k2) :
    k1.Key = k2.Key ∧ k1.Code = k2.Code ∧ k1.Fingerprint = k2.Fingerprint := by
  rw [h1] at h2
  injection h2 with h
  subst h
  exact ⟨rfl, rfl, rfl⟩

/-- Witness for C9 at the concrete toy primitive and the empty secret. -/
theorem master_deterministic_witness :
    Master toyPrim [] = Res.ok toyMaster ∧
      toyMaster.Key = toyMaster.Key ∧ toyMaster.Code = toyMaster.Code ∧
        toyMaster.Fingerprint = toyMaster.Fingerprint := by
  have h : Master toyPrim [] = Res.ok toyMaster := by decide
  exact ⟨h, master_deterministic toyPrim [] toyMaster toyMaster h h⟩

/-- C10: for every primitive and schema, hdsk `Path` applied to the bare root
string `"m"` succeeds and returns the empty path: only the upper bound
`len(indices) ≤ len(schema)` is enforced, no minimum. -/
theorem path_bare_root_empty (P : Prim) (schema : HDSchema) :
    Path P (gs "m") schema = Res.ok [] := by
  have h : goSplit (gs "/") (gs "m") = [gs "m"] := by decide
  simp [Path, h, pathLoop]

/-- C7: whenever the stored or the recomputed fingerprint is not exactly 16
bytes, hdsk `Lineage` reports the length violation as an error value, not as
a `false` verdict. -/
theorem lineage_bad_length_errs (P : Prim) (child master : HDKey)
    (h : child.Fingerprint.length ≠ 16 ∨
      (fingerprintH P master.Key child.Key).length ≠ 16) :
    Lineage P child master = Res.err lineageLenMsg := by
  simp only [Lineage]
  rw [if_pos h]

/-- Witness for C7 at a child key carrying an empty fingerprint. -/
theorem lineage_bad_length_errs_witness :
    (badFpKey.Fingerprint.length ≠ 16 ∨
      (fingerprintH toyPrim toyMaster.Key badFpKey.Key).length ≠ 16) ∧
      Lineage toyPrim badFpKey toyMaster = Res.err lineageLenMsg :=
  ⟨Or.inl (by decide),
    lineage_bad_length_errs toyPrim badFpKey toyMaster (Or.inl (by decide))⟩

/-- C6: a key returned by hdsk `Child` verifies against its parent: `Lineage`
recomputes the very fingerprint `Child` stored, both are 16 bytes, and the
constant-time comparison returns `true`. -/
theorem lineage_sound (P : Prim) (parent : HDKey) (index : Nat) (c : HDKey)
    (h : Child P parent index = Res.ok c) :
    Lineage P c parent = Res.ok true := by
  unfold Child at h
  injection h with h
  subst h
  simp [Lineage, fingerprintH_len, ctFold_self]

/-- Witness for C6 at the concrete toy primitive, master, and index 1. -/
theorem lineage_sound_witness :
    Child toyPrim toyMaster 1 = Res.ok toyChild ∧
      Lineage toyPrim toyChild toyMaster = Res.ok true := by
  have h : Child toyPrim toyMaster 1 = Res.ok toyChild := by decide
  exact ⟨h, lineage_sound toyPrim toyMaster 1 toyChild h⟩

/-- C4 counterexample: utils `CalcSalt` succeeds on the empty message with a
33-byte value (17-byte domain label ‖ 16-byte MAC), not a 16-byte salt. -/
theorem calcSalt_33_bytes_cex :
    CalcSalt tb [] =
        Res.ok (utf8 (gs "symmetric_hd/salt") ++ List.replicate 16 17) ∧
      (utf8 (gs "symmetric_hd/salt") ++ List.replicate 16 17).length ≠ 16 := by
  decide

/-- C4 amended: every successful utils `CalcSalt` result is exactly 33 bytes,
the 17-byte label `"symmetric_hd/salt"` followed by the 16-byte MAC. -/
theorem calcSalt_always_33 (B : Blake2b) (secret v : List Nat)
    (h : CalcSalt B secret = Res.ok v) : v.length = 33 := by
  have hl : (strToBytes (gs "symmetric_hd/salt")).length = 17 := by decide
  simp only [CalcSalt] at h
  rw [if_neg (by rw [hl]; omega)] at h
  injection h with h
  subst h
  simp [List.length_append, hl, B.mac16_len]

/-- Witness for the amended C4 at the concrete blake2b instance. -/
theorem calcSalt_always_33_witness :
    CalcSalt tb [] =
        Res.ok (utf8 (gs "symmetric_hd/salt") ++ List.replicate 16 17) ∧
      (utf8 (gs "symmetric_hd/salt") ++ List.replicate 16 17).length = 33 := by
  have h : CalcSalt tb [] =
      Res.ok (utf8 (gs "symmetric_hd/salt") ++ List.replicate 16 17) := by decide
  exact ⟨h, calcSalt_always_33 tb [] _ h⟩

/-- C5 counterexample: the numeric index string `"2147483648"` (the value
`2^31`, inside the claimed 32-bit range) is rejected by utils `GetIndex` as
out of range. -/
theorem getIndex_num_2pow31_rejected :
    GetIndex tb (gs "2147483648") (gs "num") = Res.err "out of range index" ∧
      digitsVal (gs "2147483648") = 2 ^ 31 ∧
      digitsVal (gs "2147483648") ≤ 2 ^ 32 - 1 := by
  decide

/-- C5 amended: under type `num`, utils `GetIndex` succeeds exactly on
base-10 digit strings whose value is at most `2^31 - 1` (the `isValidIndex`
bound), and then returns that value. -/
theorem getIndex_num_characterization (B : Blake2b) (s : List Char) (n : Nat) :
    GetIndex B s (gs "num") = Res.ok n ↔
      isNumber s = true ∧ digitsVal s ≤ 2 ^ 31 - 1 ∧ n = digitsVal s := by
  have h31 : (2 : Nat) ^ 31 - 1 = 2147483647 := by norm_num
  have h63 : (2 : Nat) ^ 63 - 1 = 9223372036854775807 := by norm_num
  cases hn : isNumber s with
  | false =>
    simp only [GetIndex, hn]
    show Res.err "invalid number index" = Res.ok n ↔ _
    simp
  | true =>
    simp only [GetIndex, hn]
    show (if isValidIndex (goAtoi s) then Res.ok (goAtoi s)
        else Res.err "out of range index") = Res.ok n ↔ _
    simp only [isValidIndex, goAtoi, h31, h63, decide_eq_true_eq, true_and]
    by_cases hv : min (digitsVal s) 9223372036854775807 ≤ 0x7FFFFFFF
    · rw [if_pos hv]
      simp only [Res.ok.injEq]
      constructor
      · intro h
        subst h
        omega
      · intro h
        omega
    · rw [if_neg hv]
      constructor
      · intro h
        cases h
      · intro h
        omega

/-- C8: under type `str`, utils `GetIndex` on a letters-and-hyphens string
succeeds with `StrToIndex`: the first four digest bytes of the blake2b hash
big-endian, reduced modulo `2^31`, hence always below `2^31`. -/
theorem getIndex_str_hash (B : Blake2b) (s : List Char)
    (hs : isString s = true) :
    GetIndex B s (gs "str") = Res.ok (StrToIndex B s) ∧
      StrToIndex B s < 2 ^ 31 := by
  have hb : StrToIndex B s < 0x80000000 :=
    Nat.mod_lt _ (by norm_num)
  have hb' : StrToIndex B s < 2 ^ 31 := by
    have h : (0x80000000 : Nat) = 2 ^ 31 := by norm_num
    rw [h] at hb
    exact hb
  refine ⟨?_, hb'⟩
  simp only [GetIndex, hs]
  show (if isValidIndex (StrToIndex B s) then Res.ok (StrToIndex B s)
      else Res.err "out of range index") = Res.ok (StrToIndex B s)
  have hv : isValidIndex (StrToIndex B s) = true := by
    simp only [isValidIndex, decide_eq_true_eq]
    omega
  rw [if_pos hv]

/-- Witness for C8 at the concrete blake2b instance and the string `"abc"`. -/
theorem getIndex_str_hash_witness :
    isString (gs "abc") = true ∧
      (GetIndex tb (gs "abc") (gs "str") = Res.ok (StrToIndex tb (gs "abc")) ∧
        StrToIndex tb (gs "abc") < 2 ^ 31) :=
  ⟨by decide, getIndex_str_hash tb (gs "abc") (by decide)⟩

/-- One productive round of the hkdf expand loop under a valid PRK key. -/
theorem expandLoop_step (B : Blake2b) (prk info : List Nat)
    (length fuel : Nat) (okm : List Nat) (i : Nat)
    (hl : okm.length < length) (hk : prk.length ≤ 64) :
    expandLoop B prk info length (fuel + 1) okm i =
      expandLoop B prk info length fuel
        (okm ++ B.mac64 prk (([] : List Nat) ++ info ++ [(i + 1) % 256]))
        (i + 1) := by
  rw [expandLoop, if_pos hl]
  rw [mac_digest, if_neg (by omega)]

/-- The hkdf expand loop with enough output stops and truncates. -/
theorem expandLoop_done (B : Blake2b) (prk info : List Nat)
    (length fuel : Nat) (okm : List Nat) (i : Nat)
    (hl : ¬ okm.length < length) :
    expandLoop B prk info length (fuel + 1) okm i = Res.ok (okm.take length) := by
  rw [expandLoop, if_neg hl]

/-- C3: in the source's expand phase the block variable is shadowed inside
the loop, so the chaining input stays empty: a two-block (128-byte) request
returns MAC(prk, info ‖ 0x01) ‖ MAC(prk, info ‖ 0x02) — the second block does
not depend on the first, against the chained construction the claim states. -/
theorem hkdf_expand_blocks_ignore_chain (B : Blake2b) (prk info : List Nat)
    (hk : prk.length ≤ 64) :
    hkdf_expand B prk info 128 =
      Res.ok (B.mac64 prk (info ++ [1]) ++ B.mac64 prk (info ++ [2])) := by
  have l1 := B.mac64_len prk (info ++ [1])
  have l2 := B.mac64_len prk (info ++ [2])
  unfold hkdf_expand
  rw [expandLoop_step B prk info 128 128 [] 0 (by simp) hk]
  simp only [List.nil_append, Nat.zero_add]
  norm_num
  rw [expandLoop_step B prk info 128 127 _ 1 (by simp [l1]) hk]
  simp only [List.nil_append]
  norm_num
  rw [expandLoop_done B prk info 128 126 _ 2 (by simp [l1, l2])]
  rw [List.take_of_length_le (by simp [l1, l2])]

/-- Witness for C3 at the concrete blake2b instance with an empty PRK and
empty info. -/
theorem hkdf_expand_blocks_ignore_chain_witness :
    ([] : List Nat).length ≤ 64 ∧
      hkdf_expand tb [] [] 128 =
        Res.ok (tb.mac64 [] ([] ++ [1]) ++ tb.mac64 [] ([] ++ [2])) :=
  ⟨by decide, hkdf_expand_blocks_ignore_chain tb [] [] (by decide)⟩
example : goSplit (gs "/") (gs "m/42/7") = [gs "m", gs "42", gs "7"] := by decide
example : goSplit (gs " / ") (gs "m / foo") = [gs "m", gs "foo"] := by decide
example : goSplit (gs ":") (gs "foo") = [gs "foo"] := by decide
example : goSplit (gs "/") (gs "") = [gs ""] := by decide
example : goTrimSpace (gs "  num ") = gs "num" := by decide
example : utf8 (gs "SALT") = [83, 65, 76, 84] := by decide

end Hdsk
